import Mathlib

/-!
Shallow embedding of `src/recursive-ai-code.py` (class `SelfImprovingAI`).
Python floats are modelled as exact rationals.  The implicit global random
generator is modelled by explicit draw environments: one record of draws per
metric for the generation step and one per metric for the testing step,
plus a clock supplying the timestamp strings.  Python dicts are modelled as
insertion-ordered association lists; a failing dict subscription (KeyError)
is modelled by `Option.none`.
-/

namespace RecursiveAI

/-- Association-list lookup, modelling Python dict subscription `d[k]` and
`d.get(k)` (first binding wins; a Python dict has unique keys). -/
def dictGet {β : Type} (d : List (String × β)) (k : String) : Option β :=
  match d with
  | [] => none
  | (k', v) :: rest => if k' = k then some v else dictGet rest k

/-- Association-list update, modelling Python dict assignment `d[k] = v`:
replaces the binding in place when the key is present, otherwise appends. -/
def dictSet {β : Type} (d : List (String × β)) (k : String) (v : β) : List (String × β) :=
  match d with
  | [] => [(k, v)]
  | (k', v') :: rest => if k' = k then (k', v) :: rest else (k', v') :: dictSet rest k v

/-- One entry of the analysis returned by `analyze_self_performance`. -/
structure MetricAnalysis where
  current_score : ℚ
  improvement_potential : ℚ
  priority : ℚ
  deriving Repr, DecidableEq

/-- An improvement candidate, as built by `generate_improvements`. -/
structure Candidate where
  type : String
  code : String
  expected_gain : ℚ
  risk_level : ℚ
  deriving Repr, DecidableEq

/-- The cosmetic diagnostic record nested in a test result. -/
structure TestDetails where
  execution_time : ℚ
  memory_usage : ℚ
  error_rate : ℚ
  deriving Repr, DecidableEq

/-- A test result, as built by `test_improvements`. -/
structure TestResult where
  success : Bool
  performance_gain : ℚ
  stability : Bool
  test_details : TestDetails
  deriving Repr, DecidableEq

/-- A history record, as appended by `apply_improvements`. -/
structure ImprovementRecord where
  generation : ℕ
  metric : String
  old_value : ℚ
  new_value : ℚ
  improvement : ℚ
  timestamp : String
  deriving Repr, DecidableEq

/-- The state of the `SelfImprovingAI` class. -/
structure SelfImprovingAI where
  generation : ℕ
  performance_metrics : List (String × ℚ)
  improvement_history : List ImprovementRecord
  current_algorithms : List (String × String)
  baseline_performance : List (String × ℚ)
  deriving Repr, DecidableEq

/-- The initial metric dict literal from `__init__`. -/
def initialMetrics : List (String × ℚ) :=
  [("algorithm_efficiency", 45.0),
   ("self_awareness_level", 20.0),
   ("improvement_accuracy", 30.0),
   ("code_quality", 40.0),
   ("learning_speed", 35.0)]

/-- `SelfImprovingAI.__init__`: `baseline_performance` is a copy of the
initial `performance_metrics`. -/
def SelfImprovingAI.init : SelfImprovingAI :=
  { generation := 1
    performance_metrics := initialMetrics
    improvement_history := []
    current_algorithms :=
      [("optimization_algo", "basic_gradient_descent"),
       ("self_analysis_algo", "simple_performance_check"),
       ("learning_algo", "basic_pattern_recognition"),
       ("code_generation_algo", "template_based_generation")]
    baseline_performance := initialMetrics }

/-- `analyze_self_performance`: per metric, potential `100 - value` and
priority `potential / 100`. -/
def analyze_self_performance (ai : SelfImprovingAI) : List (String × MetricAnalysis) :=
  ai.performance_metrics.map fun p =>
    (p.1, { current_score := p.2
            improvement_potential := 100 - p.2
            priority := (100 - p.2) / 100 })

/-- The `improvement_types` catalog from `_select_improvement_type`. -/
def improvement_types : List (String × List String) :=
  [("algorithm_efficiency", ["optimization", "caching", "parallelization"]),
   ("self_awareness_level", ["deeper_analysis", "metric_expansion", "pattern_recognition"]),
   ("improvement_accuracy", ["better_testing", "validation_enhancement", "feedback_loops"]),
   ("code_quality", ["refactoring", "design_patterns", "error_handling"]),
   ("learning_speed", ["meta_learning", "knowledge_transfer", "adaptive_algorithms"])]

/-- `_select_improvement_type`: `random.choice` over the metric's catalog
entry, falling back to the one-element generic list when the metric has no
entry.  The uniform choice is modelled by an arbitrary draw index taken
modulo the list length. -/
def select_improvement_type (metric : String) (choice : ℕ) : String :=
  let types := (dictGet improvement_types metric).getD ["general_optimization"]
  types.getD (choice % types.length) "general_optimization"

/-- `_generate_improvement_code`: the `code_templates` dict (f-strings with
the metric, the improvement type and `generation + 1` interpolated), read
with `.get` whose default is the generic templated string. -/
def generate_improvement_code (generation : ℕ) (metric : String) (improvement_type : String) : String :=
  let code_templates : List (String × String) :=
    [("optimization",
      "\ndef improved_" ++ metric ++ "_v" ++ toString (generation + 1) ++ "(self, data):\n    # Enhanced with " ++ improvement_type ++ "\n    cached_results = self.get_cache(data)\n    if cached_results:\n        return cached_results\n    \n    # Optimized processing\n    result = self.process_with_optimization(data)\n    self.cache_result(data, result)\n    return result\n            "),
     ("deeper_analysis",
      "\ndef enhanced_" ++ metric ++ "_analysis_v" ++ toString (generation + 1) ++ "(self):\n    # Multi-dimensional analysis\n    surface_metrics = self.basic_analysis()\n    deep_metrics = self.deep_pattern_analysis()\n    meta_metrics = self.analyze_analysis_quality()\n    \n    return self.synthesize_comprehensive_view(\n        surface_metrics, deep_metrics, meta_metrics\n    )\n            "),
     ("meta_learning",
      "\ndef meta_learning_" ++ metric ++ "_v" ++ toString (generation + 1) ++ "(self, experiences):\n    # Learn how to learn better\n    learning_patterns = self.extract_learning_patterns(experiences)\n    meta_patterns = self.find_patterns_in_patterns(learning_patterns)\n    \n    # Improve the learning algorithm itself\n    self.update_learning_strategy(meta_patterns)\n    return self.apply_improved_learning(experiences)\n            ")]
  (dictGet code_templates improvement_type).getD
    ("# Improved " ++ metric ++ " algorithm v" ++ toString (generation + 1))

/-- The per-metric draws consumed by `generate_improvements`: the
`random.choice` index, `random.uniform(2, 12)` and `random.uniform(0.1, 0.8)`. -/
structure GenDraw where
  type_choice : ℕ
  expected_gain : ℚ
  risk_level : ℚ

/-- The per-metric draws consumed by `test_improvements`:
`random.uniform(0.5, 1.2)`, the two `random.random()` calls, and the three
cosmetic diagnostic draws. -/
structure TestDraw where
  gain_scale : ℚ
  pass_draw : ℚ
  stability_draw : ℚ
  execution_time : ℚ
  memory_usage : ℚ
  error_rate : ℚ

/-- `generate_improvements`: a candidate for each analysis entry whose
priority exceeds 0.3, in analysis order. -/
def generate_improvements (ai : SelfImprovingAI) (analysis : List (String × MetricAnalysis))
    (gd : String → GenDraw) : List (String × Candidate) :=
  (analysis.filter fun p => (0.3 : ℚ) < p.2.priority).map fun p =>
    let d := gd p.1
    let improvement_type := select_improvement_type p.1 d.type_choice
    (p.1, { type := improvement_type
            code := generate_improvement_code ai.generation p.1 improvement_type
            expected_gain := d.expected_gain
            risk_level := d.risk_level })

/-- `test_improvements`: per candidate, `success` is the conjunction of the
pass/fail draw (`random.random() < 0.8`) and the stability draw
(`random.random() > risk_level`); the realized gain is
`expected_gain * uniform(0.5, 1.2)` when the pass draw alone succeeded, else 0. -/
def test_improvements (improvements : List (String × Candidate))
    (td : String → TestDraw) : List (String × TestResult) :=
  improvements.map fun p =>
    let d := td p.1
    let success_probability : ℚ := 0.8
    let performance_gain := p.2.expected_gain * d.gain_scale
    let test_passed : Bool := decide (d.pass_draw < success_probability)
    let stability_check : Bool := decide (p.2.risk_level < d.stability_draw)
    (p.1, { success := test_passed && stability_check
            performance_gain := if test_passed then performance_gain else 0
            stability := stability_check
            test_details := { execution_time := d.execution_time
                              memory_usage := d.memory_usage
                              error_rate := d.error_rate } })

/-- `apply_improvements`: for each successful result, in dict order, read
the old value, clamp the updated value with `min(100, old + gain)`, write it
back and append a history record whose `improvement` field stores the raw
realized gain.  A missing metric key (Python KeyError) is `none`.  The
Python method mutates `self` and returns `None`; here the updated state is
returned.  `clock` supplies each record's `datetime.now().isoformat()`. -/
def apply_improvements (ai : SelfImprovingAI) (test_results : List (String × TestResult))
    (clock : String → String) : Option SelfImprovingAI :=
  match test_results with
  | [] => some ai
  | (metric, results) :: rest =>
    if results.success then
      match dictGet ai.performance_metrics metric with
      | none => none
      | some old_value =>
        let improvement := results.performance_gain
        let new_value := min (100 : ℚ) (old_value + improvement)
        let record : ImprovementRecord :=
          { generation := ai.generation
            metric := metric
            old_value := old_value
            new_value := new_value
            improvement := improvement
            timestamp := clock metric }
        apply_improvements
          { ai with
              performance_metrics := dictSet ai.performance_metrics metric new_value
              improvement_history := ai.improvement_history ++ [record] }
          rest clock
    else
      apply_improvements ai rest clock

/-- The dict comprehension `{m: cur[m] - base[m] for m, cur in cur.items()}`
used for per-metric deltas from baseline; a missing baseline key
(Python KeyError) is `none`. -/
def delta_from_baseline (current baseline : List (String × ℚ)) : Option (List (String × ℚ)) :=
  match current with
  | [] => some []
  | p :: rest =>
    match dictGet baseline p.1 with
    | none => none
    | some b =>
      match delta_from_baseline rest baseline with
      | none => none
      | some ds => some ((p.1, p.2 - b) :: ds)

/-- The summary dict returned by `evolve_generation`. -/
structure EvolutionSummary where
  generation : ℕ
  analysis : List (String × MetricAnalysis)
  improvements_attempted : ℕ
  improvements_successful : ℕ
  performance_metrics : List (String × ℚ)
  total_improvement_from_baseline : List (String × ℚ)
  deriving Repr, DecidableEq

/-- The random draws and clock consumed by one evolution cycle. -/
structure Env where
  gen_draws : String → GenDraw
  test_draws : String → TestDraw
  clock : String → String

/-- `evolve_generation`: analyze, generate, test, apply, then increment the
generation counter and build the summary (whose `generation` field is the
pre-increment value `self.generation - 1`). -/
def evolve_generation (ai : SelfImprovingAI) (env : Env) :
    Option (EvolutionSummary × SelfImprovingAI) :=
  let analysis := analyze_self_performance ai
  let improvements := generate_improvements ai analysis env.gen_draws
  let test_results := test_improvements improvements env.test_draws
  match apply_improvements ai test_results env.clock with
  | none => none
  | some ai1 =>
    let ai2 := { ai1 with generation := ai1.generation + 1 }
    match delta_from_baseline ai2.performance_metrics ai2.baseline_performance with
    | none => none
    | some progress =>
      some ({ generation := ai2.generation - 1
              analysis := analysis
              improvements_attempted := improvements.length
              improvements_successful := (test_results.filter fun p => p.2.success).length
              performance_metrics := ai2.performance_metrics
              total_improvement_from_baseline := progress }, ai2)

/-- `run_evolution_cycles`: one `evolve_generation` per environment, in
order (printing and the inter-cycle sleep are I/O plumbing and out of
scope); the collected summaries and the final state are returned. -/
def run_evolution_cycles (ai : SelfImprovingAI) (envs : List Env) :
    Option (List EvolutionSummary × SelfImprovingAI) :=
  match envs with
  | [] => some ([], ai)
  | env :: rest =>
    match evolve_generation ai env with
    | none => none
    | some r =>
      match run_evolution_cycles r.2 rest with
      | none => none
      | some rr => some (r.1 :: rr.1, rr.2)

/-- The report dict returned by `get_evolution_report`. -/
structure EvolutionReport where
  current_generation : ℕ
  baseline_performance : List (String × ℚ)
  current_performance : List (String × ℚ)
  total_improvements : ℕ
  improvement_history : List ImprovementRecord
  overall_progress : List (String × ℚ)
  deriving Repr, DecidableEq

/-- `get_evolution_report`: a pure read of the state; `overall_progress` is
the per-metric current-minus-baseline dict. -/
def get_evolution_report (ai : SelfImprovingAI) : Option EvolutionReport :=
  (delta_from_baseline ai.performance_metrics ai.baseline_performance).map fun progress =>
    { current_generation := ai.generation
      baseline_performance := ai.baseline_performance
      current_performance := ai.performance_metrics
      total_improvements := ai.improvement_history.length
      improvement_history := ai.improvement_history
      overall_progress := progress }

/-- The support of `random.uniform(2, 12)` and `random.uniform(0.1, 0.8)`:
what any draw fed to `generate_improvements` satisfies. -/
def ValidGenDraw (d : GenDraw) : Prop :=
  2 ≤ d.expected_gain ∧ d.expected_gain ≤ 12 ∧
    (0.1 : ℚ) ≤ d.risk_level ∧ d.risk_level ≤ 0.8

/-- The support of `random.uniform(0.5, 1.2)` and `random.random()`: what
any draw fed to `test_improvements` satisfies. -/
def ValidTestDraw (d : TestDraw) : Prop :=
  (0.5 : ℚ) ≤ d.gain_scale ∧ d.gain_scale ≤ 1.2 ∧
    0 ≤ d.pass_draw ∧ d.pass_draw < 1 ∧
    0 ≤ d.stability_draw ∧ d.stability_draw < 1

/-- An environment whose draws all lie in the supports of the program's
random distributions. -/
def ValidEnv (env : Env) : Prop :=
  ∀ m, ValidGenDraw (env.gen_draws m) ∧ ValidTestDraw (env.test_draws m)

/-! ### Concrete sample states, draws and environments used in examples -/

/-- A draw environment in which every candidate is proposed with expected
gain 10 and risk 0.5 and every test passes both draws with scale factor 1
(the always-succeed scenario of the spec). -/
def alwaysSucceedEnv : Env :=
  { gen_draws := fun _ => { type_choice := 0, expected_gain := 10, risk_level := 1/2 }
    test_draws := fun _ => { gain_scale := 1, pass_draw := 0, stability_draw := 9/10,
                             execution_time := 0, memory_usage := 0, error_rate := 0 }
    clock := fun _ => "t" }

/-- A draw environment whose pass/fail draw always fails (draw 1 is not
below the 0.8 success probability). -/
def alwaysFailEnv : Env :=
  { gen_draws := fun _ => { type_choice := 0, expected_gain := 10, risk_level := 1/2 }
    test_draws := fun _ => { gain_scale := 1, pass_draw := 1, stability_draw := 9/10,
                             execution_time := 0, memory_usage := 0, error_rate := 0 }
    clock := fun _ => "t" }

/-- The test result produced by `alwaysSucceedEnv` for every candidate of
the first cycle. -/
def allPassResult : TestResult :=
  { success := true, performance_gain := 10, stability := true
    test_details := { execution_time := 0, memory_usage := 0, error_rate := 0 } }

/-- The engine state after `apply_improvements` of the first
`alwaysSucceedEnv` cycle (every metric raised by 10). -/
def oneCycleApplied : SelfImprovingAI :=
  { generation := 1
    performance_metrics := [("algorithm_efficiency", 55), ("self_awareness_level", 30),
      ("improvement_accuracy", 40), ("code_quality", 50), ("learning_speed", 45)]
    improvement_history :=
      [{ generation := 1, metric := "algorithm_efficiency", old_value := 45, new_value := 55, improvement := 10, timestamp := "t" },
       { generation := 1, metric := "self_awareness_level", old_value := 20, new_value := 30, improvement := 10, timestamp := "t" },
       { generation := 1, metric := "improvement_accuracy", old_value := 30, new_value := 40, improvement := 10, timestamp := "t" },
       { generation := 1, metric := "code_quality", old_value := 40, new_value := 50, improvement := 10, timestamp := "t" },
       { generation := 1, metric := "learning_speed", old_value := 35, new_value := 45, improvement := 10, timestamp := "t" }]
    current_algorithms :=
      [("optimization_algo", "basic_gradient_descent"),
       ("self_analysis_algo", "simple_performance_check"),
       ("learning_algo", "basic_pattern_recognition"),
       ("code_generation_algo", "template_based_generation")]
    baseline_performance := initialMetrics }

/-- The summary returned by the first `alwaysSucceedEnv` cycle. -/
def oneCycleSummary : EvolutionSummary :=
  { generation := 1
    analysis := analyze_self_performance SelfImprovingAI.init
    improvements_attempted := (generate_improvements SelfImprovingAI.init
      (analyze_self_performance SelfImprovingAI.init) alwaysSucceedEnv.gen_draws).length
    improvements_successful := 5
    performance_metrics := [("algorithm_efficiency", 55), ("self_awareness_level", 30),
      ("improvement_accuracy", 40), ("code_quality", 50), ("learning_speed", 45)]
    total_improvement_from_baseline := [("algorithm_efficiency", 10), ("self_awareness_level", 10),
      ("improvement_accuracy", 10), ("code_quality", 10), ("learning_speed", 10)] }

/-- The engine state after one full `alwaysSucceedEnv` cycle. -/
def oneCycleFinal : SelfImprovingAI :=
  { oneCycleApplied with generation := 2 }

/-- A one-metric state whose value 95 is close enough to the bound for a
gain of 10 to be clamped. -/
def clampState : SelfImprovingAI :=
  { generation := 1
    performance_metrics := [("algorithm_efficiency", 95)]
    improvement_history := []
    current_algorithms := []
    baseline_performance := [("algorithm_efficiency", 95)] }

/-- A successful test result with realized gain 10. -/
def clampResult : TestResult :=
  { success := true, performance_gain := 10, stability := true
    test_details := { execution_time := 0, memory_usage := 0, error_rate := 0 } }

/-- The state `apply_improvements` produces from `clampState` and
`clampResult`: the value is clamped to 100 while the record's
`improvement` field keeps the raw gain 10. -/
def clampState' : SelfImprovingAI :=
  { generation := 1
    performance_metrics := [("algorithm_efficiency", 100)]
    improvement_history := [{ generation := 1, metric := "algorithm_efficiency", old_value := 95, new_value := 100, improvement := 10, timestamp := "t" }]
    current_algorithms := []
    baseline_performance := [("algorithm_efficiency", 95)] }

/-- A one-metric state already saturated at 100. -/
def saturatedState : SelfImprovingAI :=
  { generation := 3
    performance_metrics := [("code_quality", 100)]
    improvement_history := []
    current_algorithms := []
    baseline_performance := [("code_quality", 100)] }

/-- A successful test result with positive realized gain 7. -/
def saturatedResult : TestResult :=
  { success := true, performance_gain := 7, stability := true
    test_details := { execution_time := 0, memory_usage := 0, error_rate := 0 } }

/-- The state `apply_improvements` produces from `saturatedState` and
`saturatedResult`. -/
def saturatedState' : SelfImprovingAI :=
  { generation := 3
    performance_metrics := [("code_quality", 100)]
    improvement_history := [{ generation := 3, metric := "code_quality", old_value := 100, new_value := 100, improvement := 7, timestamp := "t" }]
    current_algorithms := []
    baseline_performance := [("code_quality", 100)] }

/-- A candidate whose risk level 0.5 will make the stability draw below fail. -/
def posfailCandidate : Candidate :=
  { type := "general_optimization", code := "", expected_gain := 10, risk_level := 1/2 }

/-- Draws whose pass/fail draw succeeds (0.1 < 0.8) while the stability
draw fails (0.2 is not above the risk level 0.5). -/
def posfailDraws : String → TestDraw :=
  fun _ => { gain_scale := 1, pass_draw := 1/10, stability_draw := 1/5,
             execution_time := 0, memory_usage := 0, error_rate := 0 }

/-- The test result `posfailDraws` produces from `posfailCandidate`:
a strictly positive realized gain together with success = false. -/
def posfailResult : TestResult :=
  { success := false, performance_gain := 10, stability := false
    test_details := { execution_time := 0, memory_usage := 0, error_rate := 0 } }

/-- The head entry of the analysis of the initial state. -/
def initAnalysisHead : MetricAnalysis :=
  { current_score := 45.0, improvement_potential := 100 - 45.0, priority := (100 - 45.0) / 100 }

/-! ### Association-list lemmas -/

theorem dictGet_isSome_iff {β : Type} (d : List (String × β)) (k : String) :
    (dictGet d k).isSome ↔ k ∈ d.map Prod.fst := by
  induction d with
  | nil => simp [dictGet]
  | cons p rest ih =>
    obtain ⟨k', v⟩ := p
    simp only [dictGet, List.map_cons, List.mem_cons]
    by_cases h : k' = k
    · subst h
      simp
    · simp only [if_neg h]
      rw [ih]
      constructor
      · exact fun hm => Or.inr hm
      · rintro (he | hm)
        · exact absurd he.symm h
        · exact hm

theorem dictGet_eq_none_iff {β : Type} (d : List (String × β)) (k : String) :
    dictGet d k = none ↔ k ∉ d.map Prod.fst := by
  rw [← dictGet_isSome_iff, Option.not_isSome_iff_eq_none]

theorem dictGet_eq_some_mem {β : Type} {d : List (String × β)} {k : String} {v : β}
    (h : dictGet d k = some v) : (k, v) ∈ d := by
  induction d with
  | nil => simp [dictGet] at h
  | cons p rest ih =>
    obtain ⟨k', v'⟩ := p
    by_cases hk : k' = k
    · simp [dictGet, hk] at h
      subst hk h
      exact List.mem_cons_self _ _
    · simp [dictGet, hk] at h
      exact List.mem_cons_of_mem _ (ih h)

theorem dictGet_of_mem_nodup {β : Type} {d : List (String × β)}
    (hnd : (d.map Prod.fst).Nodup) {k : String} {v : β} (h : (k, v) ∈ d) :
    dictGet d k = some v := by
  induction d with
  | nil => simp at h
  | cons p rest ih =>
    obtain ⟨k', v'⟩ := p
    simp only [List.map_cons, List.nodup_cons] at hnd
    rcases List.mem_cons.mp h with h1 | h1
    · rw [Prod.mk.injEq] at h1
      obtain ⟨h1a, h1b⟩ := h1
      subst h1a
      subst h1b
      simp [dictGet]
    · have hk : k' ≠ k := by
        intro he
        subst he
        exact hnd.1 (List.mem_map.mpr ⟨(k', v), h1, rfl⟩)
      simp [dictGet, hk]
      exact ih hnd.2 h1

theorem dictGet_dictSet {β : Type} (d : List (String × β)) (k k2 : String) (v : β) :
    dictGet (dictSet d k v) k2 = if k = k2 then some v else dictGet d k2 := by
  induction d with
  | nil => by_cases h : k = k2 <;> simp [dictSet, dictGet, h]
  | cons p rest ih =>
    obtain ⟨k', v'⟩ := p
    by_cases h : k' = k
    · subst h
      by_cases h2 : k' = k2 <;> simp [dictSet, dictGet, h2]
    · by_cases h2 : k' = k2
      · subst h2
        have hne : ¬(k = k') := fun he => h he.symm
        simp [dictSet, dictGet, h, hne]
      · simp [dictSet, dictGet, h, h2, ih]

theorem dictSet_map_fst_of_mem {β : Type} {d : List (String × β)} {k : String} (v : β)
    (h : k ∈ d.map Prod.fst) : (dictSet d k v).map Prod.fst = d.map Prod.fst := by
  induction d with
  | nil => simp at h
  | cons p rest ih =>
    obtain ⟨k', v'⟩ := p
    by_cases hk : k' = k
    · simp [dictSet, hk]
    · simp only [List.map_cons] at h
      rcases List.mem_cons.mp h with h1 | h1


      · exact absurd h1.symm hk
      · simp [dictSet, hk, ih h1]

theorem mem_dictSet {β : Type} {d : List (String × β)} {k : String} {v : β} {p : String × β}
    (h : p ∈ dictSet d k v) : p = (k, v) ∨ p ∈ d := by
  induction d with
  | nil => simpa [dictSet] using h
  | cons q rest ih =>
    obtain ⟨k', v'⟩ := q
    by_cases hk : k' = k
    · subst hk
      simp only [dictSet, if_pos rfl] at h
      rcases List.mem_cons.mp h with h1 | h1
      · exact Or.inl h1
      · exact Or.inr (List.mem_cons_of_mem _ h1)
    · simp only [dictSet, if_neg hk] at h
      rcases List.mem_cons.mp h with h1 | h1
      · exact Or.inr (h1 ▸ List.mem_cons_self _ _)
      · rcases ih h1 with h2 | h2
        · exact Or.inl h2
        · exact Or.inr (List.mem_cons_of_mem _ h2)

/-! ### Facts about analysis, candidate generation and testing -/

theorem analyze_mem {ai : SelfImprovingAI} {m : String} {a : MetricAnalysis}
    (h : (m, a) ∈ analyze_self_performance ai) :
    ∃ v, (m, v) ∈ ai.performance_metrics ∧
      a.current_score = v ∧ a.improvement_potential = 100 - v ∧
      a.priority = (100 - v) / 100 := by
  simp only [analyze_self_performance, List.mem_map] at h
  obtain ⟨p, hp, he⟩ := h
  rw [Prod.mk.injEq] at he
  exact ⟨p.2, he.1 ▸ hp, by rw [← he.2], by rw [← he.2], by rw [← he.2]⟩

theorem analyze_map_fst (ai : SelfImprovingAI) :
    (analyze_self_performance ai).map Prod.fst = ai.performance_metrics.map Prod.fst := by
  simp [analyze_self_performance]

theorem generate_improvements_map_fst_mem {ai : SelfImprovingAI}
    {analysis : List (String × MetricAnalysis)} {gd : String → GenDraw} {m : String} :
    m ∈ (generate_improvements ai analysis gd).map Prod.fst ↔
      ∃ a, (m, a) ∈ analysis ∧ (0.3 : ℚ) < a.priority := by
  simp only [generate_improvements, List.map_map, List.mem_map, Function.comp,
    List.mem_filter]
  constructor
  · rintro ⟨⟨m', a⟩, ⟨hp, hpr⟩, he⟩
    dsimp at he
    subst he
    exact ⟨a, hp, of_decide_eq_true hpr⟩
  · rintro ⟨a, ha, hpr⟩
    exact ⟨(m, a), ⟨ha, decide_eq_true hpr⟩, rfl⟩

theorem generate_improvements_draws {ai : SelfImprovingAI}
    {analysis : List (String × MetricAnalysis)} {gd : String → GenDraw}
    {m : String} {c : Candidate}
    (h : (m, c) ∈ generate_improvements ai analysis gd) :
    c.expected_gain = (gd m).expected_gain ∧ c.risk_level = (gd m).risk_level := by
  simp only [generate_improvements, List.mem_map, List.mem_filter] at h
  obtain ⟨p, _, he⟩ := h
  rw [Prod.mk.injEq] at he
  rw [← he.2, he.1]
  exact ⟨rfl, rfl⟩

theorem test_improvements_map_fst (cands : List (String × Candidate))
    (td : String → TestDraw) :
    (test_improvements cands td).map Prod.fst = cands.map Prod.fst := by
  simp [test_improvements, List.map_map, Function.comp]

theorem test_improvements_fields {cands : List (String × Candidate)}
    {td : String → TestDraw} {m : String} {r : TestResult}
    (h : (m, r) ∈ test_improvements cands td) :
    ∃ c, (m, c) ∈ cands ∧
      (r.success = true ↔
        ((td m).pass_draw < (0.8 : ℚ) ∧ c.risk_level < (td m).stability_draw)) ∧
      (r.stability = true ↔ c.risk_level < (td m).stability_draw) ∧
      r.performance_gain =
        (if (td m).pass_draw < (0.8 : ℚ) then c.expected_gain * (td m).gain_scale else 0) := by
  simp only [test_improvements, List.mem_map] at h
  obtain ⟨⟨m', c⟩, hp, he⟩ := h
  rw [Prod.mk.injEq] at he
  obtain ⟨he1, he2⟩ := he
  dsimp at he1 he2
  subst he1
  refine ⟨c, hp, ?_, ?_, ?_⟩
  · rw [← he2]
    simp [Bool.and_eq_true, decide_eq_true_eq]
  · rw [← he2]
    simp [decide_eq_true_eq]
  · rw [← he2]
    by_cases hpass : (td m').pass_draw < (0.8 : ℚ) <;> simp [hpass]

theorem test_improvements_all_fail {cands : List (String × Candidate)}
    {td : String → TestDraw} (hfail : ∀ m, (0.8 : ℚ) ≤ (td m).pass_draw) :
    ∀ p ∈ test_improvements cands td, p.2.success = false := by
  intro p hp
  simp only [test_improvements, List.mem_map] at hp
  obtain ⟨q, _, he⟩ := hp
  rw [← he]
  simp only [Bool.and_eq_false_iff]
  left
  simpa using not_lt.mpr (hfail q.1)

theorem pipeline_gain_nonneg {ai : SelfImprovingAI} {env : Env} (hvalid : ValidEnv env) :
    ∀ p ∈ test_improvements
        (generate_improvements ai (analyze_self_performance ai) env.gen_draws)
        env.test_draws,
      0 ≤ p.2.performance_gain := by
  intro p hp
  obtain ⟨m, r⟩ := p
  obtain ⟨c, hc, _, _, hgain⟩ := test_improvements_fields hp
  rw [hgain]
  by_cases hpass : (env.test_draws m).pass_draw < (0.8 : ℚ)
  · rw [if_pos hpass]
    have h1 := (generate_improvements_draws hc).1
    have h2 := (hvalid m).1.1
    have h3 := (hvalid m).2.1
    refine mul_nonneg ?_ ?_
    · rw [h1]; linarith
    · have : (0 : ℚ) ≤ 0.5 := by norm_num
      linarith
  · rw [if_neg hpass]

/-! ### Basic facts about `apply_improvements` -/

theorem apply_improvements_frame (trs : List (String × TestResult)) (clock : String → String) :
    ∀ ai ai', apply_improvements ai trs clock = some ai' →
      ai'.baseline_performance = ai.baseline_performance ∧
      ai'.generation = ai.generation ∧
      ai'.current_algorithms = ai.current_algorithms ∧
      ai'.performance_metrics.map Prod.fst = ai.performance_metrics.map Prod.fst := by
  induction trs with
  | nil =>
    intro ai ai' h
    simp only [apply_improvements, Option.some.injEq] at h
    subst h
    exact ⟨rfl, rfl, rfl, rfl⟩
  | cons p rest ih =>
    intro ai ai' h
    obtain ⟨metric, results⟩ := p
    simp only [apply_improvements] at h
    cases hs : results.success with
    | false =>
      rw [hs] at h
      simp only [Bool.false_eq_true, if_false] at h
      exact ih ai ai' h
    | true =>
      rw [hs] at h
      simp only [if_true] at h
      cases hg : dictGet ai.performance_metrics metric with
      | none => rw [hg] at h; cases h
      | some old_value =>
        rw [hg] at h
        obtain ⟨h1, h2, h3, h4⟩ := ih _ _ h
        refine ⟨h1, h2, h3, ?_⟩
        rw [h4]
        exact dictSet_map_fst_of_mem _
          ((dictGet_isSome_iff _ _).mp (by rw [hg]; rfl))

theorem apply_improvements_history_length (trs : List (String × TestResult))
    (clock : String → String) :
    ∀ ai ai', apply_improvements ai trs clock = some ai' →
      ai'.improvement_history.length
        = ai.improvement_history.length + (trs.filter fun p => p.2.success).length := by
  induction trs with
  | nil =>
    intro ai ai' h
    simp only [apply_improvements, Option.some.injEq] at h
    subst h
    simp
  | cons p rest ih =>
    intro ai ai' h
    obtain ⟨metric, results⟩ := p
    simp only [apply_improvements] at h
    cases hs : results.success with
    | false =>
      rw [hs] at h
      simp only [Bool.false_eq_true, if_false] at h
      have := ih ai ai' h
      simp [List.filter_cons, hs, this]
    | true =>
      rw [hs] at h
      simp only [if_true] at h
      cases hg : dictGet ai.performance_metrics metric with
      | none => rw [hg] at h; cases h
      | some old_value =>
        rw [hg] at h
        have := ih _ _ h
        simp only [List.length_append, List.length_cons, List.length_nil] at this
        simp [List.filter_cons, hs, this]
        omega

theorem apply_improvements_range (trs : List (String × TestResult))
    (clock : String → String) :
    ∀ ai ai', apply_improvements ai trs clock = some ai' →
      (∀ p ∈ trs, 0 ≤ p.2.performance_gain) →
      (∀ p ∈ ai.performance_metrics, 0 ≤ p.2 ∧ p.2 ≤ 100) →
      ∀ p ∈ ai'.performance_metrics, 0 ≤ p.2 ∧ p.2 ≤ 100 := by
  induction trs with
  | nil =>
    intro ai ai' h _ hrange
    simp only [apply_improvements, Option.some.injEq] at h
    subst h
    exact hrange
  | cons p rest ih =>
    intro ai ai' h hgain hrange
    obtain ⟨metric, results⟩ := p
    simp only [apply_improvements] at h
    cases hs : results.success with
    | false =>
      rw [hs] at h
      simp only [Bool.false_eq_true, if_false] at h
      exact ih ai ai' h (fun q hq => hgain q (List.mem_cons_of_mem _ hq)) hrange
    | true =>
      rw [hs] at h
      simp only [if_true] at h
      cases hg : dictGet ai.performance_metrics metric with
      | none => rw [hg] at h; cases h
      | some old_value =>
        rw [hg] at h
        refine ih _ _ h (fun q hq => hgain q (List.mem_cons_of_mem _ hq)) ?_
        intro q hq
        rcases mem_dictSet hq with h1 | h1
        · subst h1
          constructor
          · refine le_min (by norm_num) ?_
            have h0 : (0 : ℚ) ≤ old_value :=
              (hrange _ (dictGet_eq_some_mem hg)).1
            have h0' : (0 : ℚ) ≤ results.performance_gain :=
              hgain (metric, results) (List.mem_cons_self _ _)
            simpa using add_nonneg h0 h0'
          · exact min_le_left _ _
        · exact hrange q h1

theorem apply_improvements_mono (trs : List (String × TestResult))
    (clock : String → String) :
    ∀ ai ai', apply_improvements ai trs clock = some ai' →
      (∀ p ∈ trs, 0 ≤ p.2.performance_gain) →
      (∀ p ∈ ai.performance_metrics, p.2 ≤ 100) →
      ∀ m v, dictGet ai.performance_metrics m = some v →
        ∃ v', dictGet ai'.performance_metrics m = some v' ∧ v ≤ v' := by
  induction trs with
  | nil =>
    intro ai ai' h _ _ m v hm
    simp only [apply_improvements, Option.some.injEq] at h
    subst h
    exact ⟨v, hm, le_refl v⟩
  | cons p rest ih =>
    intro ai ai' h hgain hub m v hm
    obtain ⟨metric, results⟩ := p
    simp only [apply_improvements] at h
    cases hs : results.success with
    | false =>
      rw [hs] at h
      simp only [Bool.false_eq_true, if_false] at h
      exact ih ai ai' h (fun q hq => hgain q (List.mem_cons_of_mem _ hq)) hub m v hm
    | true =>
      rw [hs] at h
      simp only [if_true] at h
      cases hg : dictGet ai.performance_metrics metric with
      | none => rw [hg] at h; cases h
      | some old_value =>
        rw [hg] at h
        have hub' : ∀ p ∈ (dictSet ai.performance_metrics metric
            (min (100 : ℚ) (old_value + results.performance_gain))), p.2 ≤ 100 := by
          intro q hq
          rcases mem_dictSet hq with h1 | h1
          · subst h1
            exact min_le_left _ _
          · exact hub q h1
        have ihs := ih _ _ h (fun q hq => hgain q (List.mem_cons_of_mem _ hq)) hub'
        by_cases hk : metric = m
        · subst hk
          have hv : v = old_value := by
            rw [hm] at hg
            exact Option.some.inj hg
          have hmid : dictGet (dictSet ai.performance_metrics metric
              (min (100 : ℚ) (old_value + results.performance_gain))) metric
              = some (min (100 : ℚ) (old_value + results.performance_gain)) := by
            rw [dictGet_dictSet]
            simp
          obtain ⟨v', hv', hle⟩ := ihs metric _ hmid
          refine ⟨v', hv', le_trans ?_ hle⟩
          rw [hv]
          refine le_min ?_ ?_
          · exact hub _ (dictGet_eq_some_mem hg)
          · have : (0 : ℚ) ≤ results.performance_gain :=
              hgain (metric, results) (List.mem_cons_self _ _)
            linarith
        · have hmid : dictGet (dictSet ai.performance_metrics metric
              (min (100 : ℚ) (old_value + results.performance_gain))) m
              = some v := by
            rw [dictGet_dictSet, if_neg hk]
            exact hm
          exact ihs m v hmid

theorem apply_improvements_skip (trs : List (String × TestResult))
    (clock : String → String) :
    ∀ ai ai', apply_improvements ai trs clock = some ai' →
      ∀ m, (∀ r, (m, r) ∈ trs → r.success = false) →
        dictGet ai'.performance_metrics m = dictGet ai.performance_metrics m ∧
        ∀ rec ∈ ai'.improvement_history,
          rec ∈ ai.improvement_history ∨ rec.metric ≠ m := by
  induction trs with
  | nil =>
    intro ai ai' h m _
    simp only [apply_improvements, Option.some.injEq] at h
    subst h
    exact ⟨rfl, fun rec hrec => Or.inl hrec⟩
  | cons p rest ih =>
    intro ai ai' h m hall
    obtain ⟨metric, results⟩ := p
    simp only [apply_improvements] at h
    cases hs : results.success with
    | false =>
      rw [hs] at h
      simp only [Bool.false_eq_true, if_false] at h
      exact ih ai ai' h m fun r hr => hall r (List.mem_cons_of_mem _ hr)
    | true =>
      rw [hs] at h
      simp only [if_true] at h
      cases hg : dictGet ai.performance_metrics metric with
      | none => rw [hg] at h; cases h
      | some old_value =>
        rw [hg] at h
        have hk : metric ≠ m := by
          intro he
          subst he
          have := hall results (List.mem_cons_self _ _)
          rw [hs] at this
          cases this
        obtain ⟨ih1, ih2⟩ := ih _ _ h m fun r hr => hall r (List.mem_cons_of_mem _ hr)
        constructor
        · rw [ih1, dictGet_dictSet, if_neg hk]
        · intro rec hrec
          rcases ih2 rec hrec with h1 | h1
          · rcases List.mem_append.mp h1 with h2 | h2
            · exact Or.inl h2
            · simp only [List.mem_singleton] at h2
              subst h2
              exact Or.inr hk
          · exact Or.inr h1

theorem apply_improvements_records (trs : List (String × TestResult))
    (clock : String → String) :
    ∀ ai ai', apply_improvements ai trs clock = some ai' →
      (trs.map Prod.fst).Nodup →
      ∃ recs, ai'.improvement_history = ai.improvement_history ++ recs ∧
        ∀ rec ∈ recs,
          rec.generation = ai.generation ∧
          dictGet ai.performance_metrics rec.metric = some rec.old_value ∧
          rec.new_value = min (100 : ℚ) (rec.old_value + rec.improvement) ∧
          rec.timestamp = clock rec.metric ∧
          ∃ r, (rec.metric, r) ∈ trs ∧ r.success = true ∧
            rec.improvement = r.performance_gain := by
  induction trs with
  | nil =>
    intro ai ai' h _
    simp only [apply_improvements, Option.some.injEq] at h
    subst h
    exact ⟨[], by simp, by simp⟩
  | cons p rest ih =>
    intro ai ai' h hnd
    obtain ⟨metric, results⟩ := p
    simp only [List.map_cons, List.nodup_cons] at hnd
    simp only [apply_improvements] at h
    cases hs : results.success with
    | false =>
      rw [hs] at h
      simp only [Bool.false_eq_true, if_false] at h
      obtain ⟨recs, hr1, hr2⟩ := ih ai ai' h hnd.2
      refine ⟨recs, hr1, fun rec hrec => ?_⟩
      obtain ⟨ha, hb, hc, hd, r, hr, hrs, hrg⟩ := hr2 rec hrec
      exact ⟨ha, hb, hc, hd, r, List.mem_cons_of_mem _ hr, hrs, hrg⟩
    | true =>
      rw [hs] at h
      simp only [if_true] at h
      cases hg : dictGet ai.performance_metrics metric with
      | none => rw [hg] at h; cases h
      | some old_value =>
        rw [hg] at h
        obtain ⟨recs, hr1, hr2⟩ := ih _ _ h hnd.2
        refine ⟨{ generation := ai.generation, metric := metric, old_value := old_value,
                  new_value := min (100 : ℚ) (old_value + results.performance_gain),
                  improvement := results.performance_gain,
                  timestamp := clock metric } :: recs, ?_, ?_⟩
        · rw [hr1]
          simp
        · intro rec hrec
          rcases List.mem_cons.mp hrec with h1 | h1
          · subst h1
            exact ⟨rfl, hg, rfl, rfl, results, List.mem_cons_self _ _, hs, rfl⟩
          · obtain ⟨ha, hb, hc, hd, r, hr, hrs, hrg⟩ := hr2 rec h1
            have hkm : rec.metric ≠ metric := by
              intro he
              exact hnd.1 (he ▸ List.mem_map.mpr ⟨(rec.metric, r), hr, rfl⟩)
            refine ⟨ha, ?_, hc, hd, r, List.mem_cons_of_mem _ hr, hrs, hrg⟩
            rw [dictGet_dictSet, if_neg (Ne.symm hkm)] at hb
            exact hb

theorem apply_improvements_all_fail (trs : List (String × TestResult))
    (clock : String → String) :
    ∀ ai, (∀ p ∈ trs, p.2.success = false) → apply_improvements ai trs clock = some ai := by
  induction trs with
  | nil => intro ai _; rfl
  | cons p rest ih =>
    intro ai hall
    obtain ⟨metric, results⟩ := p
    have hs : results.success = false := hall (metric, results) (List.mem_cons_self _ _)
    simp only [apply_improvements, hs, Bool.false_eq_true, if_false]
    exact ih ai fun q hq => hall q (List.mem_cons_of_mem _ hq)

theorem apply_improvements_total (trs : List (String × TestResult))
    (clock : String → String) :
    ∀ ai, (∀ p ∈ trs, p.1 ∈ ai.performance_metrics.map Prod.fst) →
      ∃ ai', apply_improvements ai trs clock = some ai' := by
  induction trs with
  | nil => intro ai _; exact ⟨ai, rfl⟩
  | cons p rest ih =>
    intro ai hkeys
    obtain ⟨metric, results⟩ := p
    cases hs : results.success with
    | false =>
      obtain ⟨ai', h⟩ := ih ai fun q hq => hkeys q (List.mem_cons_of_mem _ hq)
      exact ⟨ai', by simp only [apply_improvements, hs, Bool.false_eq_true, if_false]; exact h⟩
    | true =>
      have hmem : metric ∈ ai.performance_metrics.map Prod.fst :=
        hkeys (metric, results) (List.mem_cons_self _ _)
      cases hg : dictGet ai.performance_metrics metric with
      | none =>
        rw [dictGet_eq_none_iff] at hg
        exact absurd hmem hg
      | some old_value =>
        obtain ⟨ai', h⟩ := ih
          { ai with
              performance_metrics := dictSet ai.performance_metrics metric
                (min (100 : ℚ) (old_value + results.performance_gain))
              improvement_history := ai.improvement_history ++
                [{ generation := ai.generation, metric := metric, old_value := old_value,
                   new_value := min (100 : ℚ) (old_value + results.performance_gain),
                   improvement := results.performance_gain, timestamp := clock metric }] }
          (by
            intro q hq
            have := hkeys q (List.mem_cons_of_mem _ hq)
            simpa [dictSet_map_fst_of_mem _ hmem] using this)
        refine ⟨ai', ?_⟩
        simp only [apply_improvements, hs, if_true, hg]
        exact h

/-! ### Facts about `delta_from_baseline` -/

theorem delta_from_baseline_isSome (current baseline : List (String × ℚ))
    (h : ∀ p ∈ current, (dictGet baseline p.1).isSome) :
    ∃ ds, delta_from_baseline current baseline = some ds := by
  induction current with
  | nil => exact ⟨[], rfl⟩
  | cons p rest ih =>
    have h1 := h p (List.mem_cons_self _ _)
    cases hg : dictGet baseline p.1 with
    | none => rw [hg] at h1; cases h1
    | some b =>
      obtain ⟨ds, hds⟩ := ih fun q hq => h q (List.mem_cons_of_mem _ hq)
      exact ⟨(p.1, p.2 - b) :: ds, by simp only [delta_from_baseline, hg, hds]⟩

theorem delta_from_baseline_mem {current baseline : List (String × ℚ)}
    {ds : List (String × ℚ)} (h : delta_from_baseline current baseline = some ds) :
    ∀ q ∈ ds, ∃ p ∈ current, ∃ b, dictGet baseline p.1 = some b ∧ q = (p.1, p.2 - b) := by
  induction current generalizing ds with
  | nil =>
    simp only [delta_from_baseline, Option.some.injEq] at h
    subst h
    intro q hq
    exact absurd hq (List.not_mem_nil q)
  | cons p rest ih =>
    simp only [delta_from_baseline] at h
    cases hg : dictGet baseline p.1 with
    | none => rw [hg] at h; cases h
    | some b =>
      rw [hg] at h
      cases hd : delta_from_baseline rest baseline with
      | none => rw [hd] at h; cases h
      | some ds' =>
        rw [hd] at h
        simp only [Option.some.injEq] at h
        subst h
        intro q hq
        rcases List.mem_cons.mp hq with h1 | h1
        · exact ⟨p, List.mem_cons_self _ _, b, hg, h1⟩
        · obtain ⟨p', hp', b', hb', he⟩ := ih hd q h1
          exact ⟨p', List.mem_cons_of_mem _ hp', b', hb', he⟩

/-! ### Facts about `evolve_generation` -/

theorem evolve_generation_spec {ai : SelfImprovingAI} {env : Env}
    {s : EvolutionSummary} {ai' : SelfImprovingAI}
    (h : evolve_generation ai env = some (s, ai')) :
    ∃ ai1,
      apply_improvements ai (test_improvements (generate_improvements ai
        (analyze_self_performance ai) env.gen_draws) env.test_draws) env.clock = some ai1 ∧
      ai' = { ai1 with generation := ai1.generation + 1 } ∧
      s.generation = ai1.generation ∧
      s.performance_metrics = ai1.performance_metrics ∧
      s.improvements_attempted = (generate_improvements ai
        (analyze_self_performance ai) env.gen_draws).length ∧
      s.improvements_successful = ((test_improvements (generate_improvements ai
        (analyze_self_performance ai) env.gen_draws) env.test_draws).filter
          fun p => p.2.success).length ∧
      delta_from_baseline ai1.performance_metrics ai1.baseline_performance
        = some s.total_improvement_from_baseline := by
  simp only [evolve_generation] at h
  cases happ : apply_improvements ai (test_improvements (generate_improvements ai
      (analyze_self_performance ai) env.gen_draws) env.test_draws) env.clock with
  | none => rw [happ] at h; cases h
  | some ai1 =>
    rw [happ] at h
    simp only at h
    cases hds : delta_from_baseline ai1.performance_metrics ai1.baseline_performance with
    | none => rw [hds] at h; cases h
    | some ds =>
      rw [hds] at h
      simp only [Option.some.injEq, Prod.mk.injEq] at h
      obtain ⟨hsum, hai⟩ := h
      subst hsum
      subst hai
      exact ⟨ai1, rfl, rfl, by simp, rfl, rfl, rfl, hds⟩

/-- The reachability invariant of the engine state: the metric keys are
distinct, every current value lies in [0, 100], and every baseline value is
dominated by the corresponding current value. -/
def Inv (ai : SelfImprovingAI) : Prop :=
  (ai.performance_metrics.map Prod.fst).Nodup ∧
  (∀ p ∈ ai.performance_metrics, 0 ≤ p.2 ∧ p.2 ≤ 100) ∧
  (∀ m b, dictGet ai.baseline_performance m = some b →
    ∃ v, dictGet ai.performance_metrics m = some v ∧ b ≤ v)

theorem Inv_init : Inv SelfImprovingAI.init := by
  refine ⟨by decide, ?_, ?_⟩
  · intro p hp
    simp only [SelfImprovingAI.init, initialMetrics, List.mem_cons,
      List.not_mem_nil, or_false] at hp
    rcases hp with rfl | rfl | rfl | rfl | rfl <;> norm_num
  · intro m b hb
    exact ⟨b, hb, le_refl b⟩

theorem delta_from_baseline_nonneg {ai : SelfImprovingAI} (hinv : Inv ai)
    {ds : List (String × ℚ)}
    (h : delta_from_baseline ai.performance_metrics ai.baseline_performance = some ds) :
    ∀ q ∈ ds, 0 ≤ q.2 := by
  intro q hq
  obtain ⟨p, hp, b, hb, he⟩ := delta_from_baseline_mem h q hq
  have hpv : dictGet ai.performance_metrics p.1 = some p.2 :=
    dictGet_of_mem_nodup hinv.1 hp
  obtain ⟨v, hv1, hv2⟩ := hinv.2.2 p.1 b hb
  rw [hpv] at hv1
  have : v = p.2 := (Option.some.inj hv1).symm
  subst this
  rw [he]
  simp only
  linarith

theorem evolve_generation_Inv {ai : SelfImprovingAI} {env : Env}
    {s : EvolutionSummary} {ai' : SelfImprovingAI}
    (hv : ValidEnv env) (hinv : Inv ai)
    (h : evolve_generation ai env = some (s, ai')) :
    Inv ai' ∧
    ai'.baseline_performance = ai.baseline_performance ∧
    (∀ p ∈ s.performance_metrics, 0 ≤ p.2 ∧ p.2 ≤ 100) ∧
    (∀ q ∈ s.total_improvement_from_baseline, 0 ≤ q.2) := by
  obtain ⟨ai1, happ, hai, _, hsm, _, _, hds⟩ := evolve_generation_spec h
  obtain ⟨hbase, _, _, hkeys⟩ := apply_improvements_frame _ _ _ _ happ
  have hgain : ∀ p ∈ test_improvements (generate_improvements ai
      (analyze_self_performance ai) env.gen_draws) env.test_draws,
      0 ≤ p.2.performance_gain := pipeline_gain_nonneg hv
  have hrange1 : ∀ p ∈ ai1.performance_metrics, 0 ≤ p.2 ∧ p.2 ≤ 100 :=
    apply_improvements_range _ _ _ _ happ hgain hinv.2.1
  have hnodup1 : (ai1.performance_metrics.map Prod.fst).Nodup := by
    rw [hkeys]
    exact hinv.1
  have hble1 : ∀ m b, dictGet ai1.baseline_performance m = some b →
      ∃ v, dictGet ai1.performance_metrics m = some v ∧ b ≤ v := by
    intro m b hb
    rw [hbase] at hb
    obtain ⟨v, hv1, hv2⟩ := hinv.2.2 m b hb
    obtain ⟨v', hv1', hv2'⟩ := apply_improvements_mono _ _ _ _ happ hgain
      (fun p hp => (hinv.2.1 p hp).2) m v hv1
    exact ⟨v', hv1', le_trans hv2 hv2'⟩
  have hInv' : Inv ai' := by
    rw [hai]
    exact ⟨hnodup1, hrange1, hble1⟩
  refine ⟨hInv', by rw [hai]; exact hbase, ?_, ?_⟩
  · rw [hsm]
    exact hrange1
  · exact delta_from_baseline_nonneg ⟨hnodup1, hrange1, hble1⟩ hds

theorem evolve_generation_total (ai : SelfImprovingAI) (env : Env)
    (hkeys : ∀ k ∈ ai.performance_metrics.map Prod.fst,
      (dictGet ai.baseline_performance k).isSome) :
    ∃ r, evolve_generation ai env = some r := by
  have hsub : ∀ p ∈ test_improvements (generate_improvements ai
      (analyze_self_performance ai) env.gen_draws) env.test_draws,
      p.1 ∈ ai.performance_metrics.map Prod.fst := by
    intro p hp
    have h1 : p.1 ∈ (test_improvements (generate_improvements ai
        (analyze_self_performance ai) env.gen_draws) env.test_draws).map Prod.fst :=
      List.mem_map.mpr ⟨p, hp, rfl⟩
    rw [test_improvements_map_fst] at h1
    rw [generate_improvements_map_fst_mem] at h1
    obtain ⟨a, ha, _⟩ := h1
    have h2 : p.1 ∈ (analyze_self_performance ai).map Prod.fst :=
      List.mem_map.mpr ⟨(p.1, a), ha, rfl⟩
    rw [analyze_map_fst] at h2
    exact h2
  obtain ⟨ai1, happ⟩ := apply_improvements_total _ env.clock ai hsub
  obtain ⟨hbase, _, _, hk⟩ := apply_improvements_frame _ _ _ _ happ
  obtain ⟨ds, hds⟩ := delta_from_baseline_isSome ai1.performance_metrics
    ai1.baseline_performance (by
      intro p hp
      have : p.1 ∈ ai1.performance_metrics.map Prod.fst := List.mem_map.mpr ⟨p, hp, rfl⟩
      rw [hk] at this
      rw [hbase]
      exact hkeys p.1 this)
  rw [← Option.isSome_iff_exists]
  simp only [evolve_generation, happ, hds, Option.isSome_some]

/-! ### Facts about `run_evolution_cycles` -/

theorem run_evolution_cycles_history (envs : List Env) :
    ∀ ai ss fin, run_evolution_cycles ai envs = some (ss, fin) →
      fin.baseline_performance = ai.baseline_performance ∧
      fin.improvement_history.length = ai.improvement_history.length +
        (ss.map fun s => s.improvements_successful).sum := by
  induction envs with
  | nil =>
    intro ai ss fin h
    simp only [run_evolution_cycles, Option.some.injEq, Prod.mk.injEq] at h
    obtain ⟨h1, h2⟩ := h
    subst h1
    subst h2
    simp
  | cons env rest ih =>
    intro ai ss fin h
    simp only [run_evolution_cycles] at h
    split at h
    · simp at h
    rename_i r he
    split at h
    · simp at h
    rename_i rr hr
    simp only [Option.some.injEq, Prod.mk.injEq] at h
    obtain ⟨h1, h2⟩ := h
    subst h1
    subst h2
    have he' : evolve_generation ai env = some (r.1, r.2) := by rw [he]
    obtain ⟨ai1, happ, hai, _, _, _, hcount, _⟩ := evolve_generation_spec he'
    obtain ⟨hbase, _, _, _⟩ := apply_improvements_frame _ _ _ _ happ
    have hlen := apply_improvements_history_length _ _ _ _ happ
    obtain ⟨ihb, ihl⟩ := ih r.2 rr.1 rr.2 hr
    constructor
    · rw [ihb, hai]
      exact hbase
    · rw [ihl, hai]
      simp only [List.map_cons, List.sum_cons]
      rw [hlen, hcount]
      omega

theorem run_evolution_cycles_Inv (envs : List Env) :
    ∀ ai ss fin, (∀ e ∈ envs, ValidEnv e) → Inv ai →
      run_evolution_cycles ai envs = some (ss, fin) →
      Inv fin ∧
      ∀ s ∈ ss, (∀ p ∈ s.performance_metrics, 0 ≤ p.2 ∧ p.2 ≤ 100) ∧
        (∀ q ∈ s.total_improvement_from_baseline, 0 ≤ q.2) := by
  induction envs with
  | nil =>
    intro ai ss fin _ hinv h
    simp only [run_evolution_cycles, Option.some.injEq, Prod.mk.injEq] at h
    obtain ⟨h1, h2⟩ := h
    subst h1
    subst h2
    exact ⟨hinv, fun s hs => absurd hs (List.not_mem_nil s)⟩
  | cons env rest ih =>
    intro ai ss fin hv hinv h
    simp only [run_evolution_cycles] at h
    split at h
    · simp at h
    rename_i r he
    split at h
    · simp at h
    rename_i rr hr
    simp only [Option.some.injEq, Prod.mk.injEq] at h
    obtain ⟨h1, h2⟩ := h
    subst h1
    subst h2
    have hrpair : evolve_generation ai env = some (r.1, r.2) := by
      rw [he]
    obtain ⟨hinv1, _, hsr, hsp⟩ :=
      evolve_generation_Inv (hv env (List.mem_cons_self _ _)) hinv hrpair
    obtain ⟨ihInv, ihss⟩ := ih r.2 rr.1 rr.2
      (fun e h' => hv e (List.mem_cons_of_mem _ h')) hinv1 hr
    refine ⟨ihInv, ?_⟩
    intro s hs
    rcases List.mem_cons.mp hs with h1 | h1
    · subst h1
      exact ⟨hsr, hsp⟩
    · exact ihss s h1

theorem run_evolution_cycles_all_fail (envs : List Env) :
    ∀ ai, (∀ e ∈ envs, ∀ m, (0.8 : ℚ) ≤ (e.test_draws m).pass_draw) →
      (∀ p ∈ ai.performance_metrics, (dictGet ai.baseline_performance p.1).isSome) →
      ∃ ss fin, run_evolution_cycles ai envs = some (ss, fin) ∧
        fin.performance_metrics = ai.performance_metrics ∧
        fin.improvement_history = ai.improvement_history ∧
        fin.baseline_performance = ai.baseline_performance := by
  induction envs with
  | nil => intro ai _ _; exact ⟨[], ai, rfl, rfl, rfl, rfl⟩
  | cons env rest ih =>
    intro ai hfail hkeys
    have hsfalse : ∀ p ∈ test_improvements (generate_improvements ai
        (analyze_self_performance ai) env.gen_draws) env.test_draws,
        p.2.success = false :=
      test_improvements_all_fail (hfail env (List.mem_cons_self _ _))
    have happ := apply_improvements_all_fail _ env.clock ai hsfalse
    obtain ⟨ds, hds⟩ := delta_from_baseline_isSome ai.performance_metrics
      ai.baseline_performance hkeys
    obtain ⟨ss, fin, hrun, hm, hh, hb⟩ := ih { ai with generation := ai.generation + 1 }
      (fun e h' => hfail e (List.mem_cons_of_mem _ h')) hkeys
    refine ⟨{ generation := ai.generation + 1 - 1,
              analysis := analyze_self_performance ai,
              improvements_attempted := (generate_improvements ai
                (analyze_self_performance ai) env.gen_draws).length,
              improvements_successful := ((test_improvements (generate_improvements ai
                (analyze_self_performance ai) env.gen_draws) env.test_draws).filter
                  fun p => p.2.success).length,
              performance_metrics := ai.performance_metrics,
              total_improvement_from_baseline := ds } :: ss, fin, ?_, hm, hh, hb⟩
    simp only [run_evolution_cycles, evolve_generation, happ, hds, hrun]

/-! ### Miscellaneous helpers -/

theorem getD_mod_mem (l : List String) (c : ℕ) (d : String) (hl : l ≠ []) :
    l.getD (c % l.length) d ∈ l := by
  have hlen : 0 < l.length := List.length_pos.mpr hl
  have hmod : c % l.length < l.length := Nat.mod_lt _ hlen
  rw [List.getD_eq_getElem _ _ hmod]
  exact List.getElem_mem hmod

theorem catalog_lists_nonempty : ∀ p ∈ improvement_types, p.2 ≠ [] := by decide

theorem alwaysSucceedEnv_valid : ValidEnv alwaysSucceedEnv := by
  intro m
  constructor
  · refine ⟨?_, ?_, ?_, ?_⟩ <;> norm_num [alwaysSucceedEnv]
  · refine ⟨?_, ?_, ?_, ?_, ?_, ?_⟩ <;> norm_num [alwaysSucceedEnv]

/-! ### Concrete evaluations -/

theorem alwaysSucceed_tests_eq :
    test_improvements (generate_improvements SelfImprovingAI.init
      (analyze_self_performance SelfImprovingAI.init) alwaysSucceedEnv.gen_draws)
      alwaysSucceedEnv.test_draws
    = [("algorithm_efficiency", allPassResult), ("self_awareness_level", allPassResult),
       ("improvement_accuracy", allPassResult), ("code_quality", allPassResult),
       ("learning_speed", allPassResult)] := by
  simp +decide only [test_improvements, generate_improvements, analyze_self_performance,
    SelfImprovingAI.init, initialMetrics, alwaysSucceedEnv, allPassResult,
    List.map_cons, List.map_nil, List.filter_cons, List.filter_nil]
  norm_num

theorem alwaysSucceed_apply_eq :
    apply_improvements SelfImprovingAI.init
      [("algorithm_efficiency", allPassResult), ("self_awareness_level", allPassResult),
       ("improvement_accuracy", allPassResult), ("code_quality", allPassResult),
       ("learning_speed", allPassResult)]
      alwaysSucceedEnv.clock = some oneCycleApplied := by
  simp +decide only [apply_improvements, SelfImprovingAI.init, initialMetrics,
    alwaysSucceedEnv, allPassResult, oneCycleApplied, dictGet, dictSet, if_pos, if_true]
  norm_num

theorem alwaysSucceed_delta_eq :
    delta_from_baseline oneCycleApplied.performance_metrics
      oneCycleApplied.baseline_performance
    = some [("algorithm_efficiency", 10), ("self_awareness_level", 10),
            ("improvement_accuracy", 10), ("code_quality", 10), ("learning_speed", 10)] := by
  simp +decide only [delta_from_baseline, oneCycleApplied, initialMetrics, dictGet]
  norm_num

theorem alwaysSucceed_run_eq :
    run_evolution_cycles SelfImprovingAI.init [alwaysSucceedEnv]
      = some ([oneCycleSummary], oneCycleFinal) := by
  simp only [run_evolution_cycles, evolve_generation, alwaysSucceed_tests_eq,
    alwaysSucceed_apply_eq, alwaysSucceed_delta_eq]
  norm_num [oneCycleSummary, oneCycleFinal, oneCycleApplied, allPassResult,
    List.filter_cons, List.filter_nil]

theorem clamp_apply_eq :
    apply_improvements clampState [("algorithm_efficiency", clampResult)] (fun _ => "t")
      = some clampState' := by
  simp +decide only [apply_improvements, clampState, clampResult, clampState',
    dictGet, dictSet, if_pos, if_true]
  norm_num

theorem saturated_apply_eq :
    apply_improvements saturatedState [("code_quality", saturatedResult)] (fun _ => "t")
      = some saturatedState' := by
  simp +decide only [apply_improvements, saturatedState, saturatedResult, saturatedState',
    dictGet, dictSet, if_pos, if_true]
  norm_num

theorem posfail_tests_eq :
    test_improvements [("sample_metric", posfailCandidate)] posfailDraws
      = [("sample_metric", posfailResult)] := by
  simp only [test_improvements, posfailCandidate, posfailDraws, posfailResult,
    List.map_cons, List.map_nil]
  norm_num

/-! ### The claims -/

/-- C1 (counterexample): at old value 95 with realized gain 10 the update
clamps to 100, and the appended history record's delta field
(`improvement`) stores the raw gain 10 rather than new − old = 5. -/
theorem clamped_record_delta_counterexample :
    (apply_improvements clampState [("algorithm_efficiency", clampResult)] (fun _ => "t")).map
        (fun a => a.improvement_history.map fun rec =>
          (rec.old_value, rec.new_value, rec.improvement, rec.new_value - rec.old_value))
      = some [(95, 100, 10, 5)] ∧ (10 : ℚ) ≠ 5 := by
  refine ⟨?_, by norm_num⟩
  rw [clamp_apply_eq]
  simp only [Option.map_some', clampState', List.map_cons, List.map_nil]
  norm_num

/-- C1 (amended): every history record appended by `apply_improvements`
carries the pre-increment generation counter, the metric's value before its
update as `old`, `new = min(100, old + realized_gain)`, and a delta field
equal to the realized gain; the delta field equals new − old exactly when
the update is not clamped (old + gain ≤ 100). -/
theorem apply_improvements_record_fields
    (ai : SelfImprovingAI) (trs : List (String × TestResult)) (clock : String → String)
    (ai' : SelfImprovingAI) (h : apply_improvements ai trs clock = some ai')
    (hnd : (trs.map Prod.fst).Nodup) :
    ∃ recs, ai'.improvement_history = ai.improvement_history ++ recs ∧
      ∀ rec ∈ recs,
        rec.generation = ai.generation ∧
        dictGet ai.performance_metrics rec.metric = some rec.old_value ∧
        rec.new_value = min (100 : ℚ) (rec.old_value + rec.improvement) ∧
        (∃ r, (rec.metric, r) ∈ trs ∧ r.success = true ∧
          rec.improvement = r.performance_gain) ∧
        (rec.old_value + rec.improvement ≤ 100 →
          rec.improvement = rec.new_value - rec.old_value) := by
  obtain ⟨recs, hr1, hr2⟩ := apply_improvements_records trs clock ai ai' h hnd
  refine ⟨recs, hr1, fun rec hrec => ?_⟩
  obtain ⟨ha, hb, hc, _, hex⟩ := hr2 rec hrec
  refine ⟨ha, hb, hc, hex, fun hle => ?_⟩
  rw [hc, min_eq_right hle]
  ring

/-- C1 (witness): the amended record description holds at the concrete
clamped update from `clampState`. -/
theorem apply_improvements_record_fields_witness :
    ∃ recs, clampState'.improvement_history = clampState.improvement_history ++ recs ∧
      ∀ rec ∈ recs,
        rec.generation = clampState.generation ∧
        dictGet clampState.performance_metrics rec.metric = some rec.old_value ∧
        rec.new_value = min (100 : ℚ) (rec.old_value + rec.improvement) ∧
        (∃ r, (rec.metric, r) ∈ [("algorithm_efficiency", clampResult)] ∧ r.success = true ∧
          rec.improvement = r.performance_gain) ∧
        (rec.old_value + rec.improvement ≤ 100 →
          rec.improvement = rec.new_value - rec.old_value) :=
  apply_improvements_record_fields clampState [("algorithm_efficiency", clampResult)]
    (fun _ => "t") clampState' clamp_apply_eq (by decide)

/-- C2: a test result's success flag is the conjunction of the pass/fail
draw and the stability draw while the realized gain depends on the pass
draw alone, so a result can carry a strictly positive realized gain with
success = false (witnessed by `posfailDraws`). -/
theorem test_improvements_success_spec :
    (∀ (cands : List (String × Candidate)) (td : String → TestDraw) (m : String)
        (r : TestResult), (m, r) ∈ test_improvements cands td →
      ∃ c, (m, c) ∈ cands ∧
        (r.success = true ↔
          ((td m).pass_draw < (0.8 : ℚ) ∧ c.risk_level < (td m).stability_draw)) ∧
        r.performance_gain =
          (if (td m).pass_draw < (0.8 : ℚ) then c.expected_gain * (td m).gain_scale else 0)) ∧
    ((test_improvements [("sample_metric", posfailCandidate)] posfailDraws).map
        (fun p => (p.2.success, p.2.performance_gain)) = [(false, 10)] ∧ (0 : ℚ) < 10) := by
  refine ⟨?_, ?_, by norm_num⟩
  · intro cands td m r hmem
    obtain ⟨c, hc, hsucc, _, hgain⟩ := test_improvements_fields hmem
    exact ⟨c, hc, hsucc, hgain⟩
  · rw [posfail_tests_eq]
    simp [posfailResult]

/-- C2 (witness): the field description holds at the concrete
pass-succeeds/stability-fails draw. -/
theorem test_improvements_success_spec_witness :
    ∃ c, ("sample_metric", c) ∈ [("sample_metric", posfailCandidate)] ∧
      (posfailResult.success = true ↔
        ((posfailDraws "sample_metric").pass_draw < (0.8 : ℚ) ∧
          c.risk_level < (posfailDraws "sample_metric").stability_draw)) ∧
      posfailResult.performance_gain =
        (if (posfailDraws "sample_metric").pass_draw < (0.8 : ℚ)
          then c.expected_gain * (posfailDraws "sample_metric").gain_scale else 0) :=
  test_improvements_success_spec.1 [("sample_metric", posfailCandidate)] posfailDraws
    "sample_metric" posfailResult (by rw [posfail_tests_eq]; exact List.mem_cons_self _ _)

/-- C3: over any run from construction with draws inside the program's
distributions, every current metric value after each cycle's
`apply_improvements` (the summary snapshots and the final state) lies in
[0, 100]. -/
theorem metrics_in_range
    (envs : List Env) (hv : ∀ e ∈ envs, ValidEnv e)
    (ss : List EvolutionSummary) (fin : SelfImprovingAI)
    (h : run_evolution_cycles SelfImprovingAI.init envs = some (ss, fin)) :
    (∀ p ∈ fin.performance_metrics, 0 ≤ p.2 ∧ p.2 ≤ 100) ∧
    ∀ s ∈ ss, ∀ p ∈ s.performance_metrics, 0 ≤ p.2 ∧ p.2 ≤ 100 := by
  obtain ⟨hinv, hss⟩ := run_evolution_cycles_Inv envs SelfImprovingAI.init ss fin hv Inv_init h
  exact ⟨hinv.2.1, fun s hs => (hss s hs).1⟩

/-- C3 (witness): the bounds hold after one concrete always-succeed cycle. -/
theorem metrics_in_range_witness :
    (∀ p ∈ oneCycleFinal.performance_metrics, 0 ≤ p.2 ∧ p.2 ≤ 100) ∧
    ∀ s ∈ [oneCycleSummary], ∀ p ∈ s.performance_metrics, 0 ≤ p.2 ∧ p.2 ≤ 100 :=
  metrics_in_range [alwaysSucceedEnv]
    (by
      intro e he
      rw [List.mem_singleton] at he
      subst he
      exact alwaysSucceedEnv_valid)
    [oneCycleSummary] oneCycleFinal alwaysSucceed_run_eq

/-- C4: after any number of completed cycles from construction, the length
of the improvement history equals the sum over the cycles of the success
count reported in each cycle's summary. -/
theorem history_length_eq_success_sum
    (envs : List Env) (ss : List EvolutionSummary) (fin : SelfImprovingAI)
    (h : run_evolution_cycles SelfImprovingAI.init envs = some (ss, fin)) :
    fin.improvement_history.length = (ss.map fun s => s.improvements_successful).sum := by
  have h2 := (run_evolution_cycles_history envs SelfImprovingAI.init ss fin h).2
  simpa [SelfImprovingAI.init] using h2

/-- C4 (witness): after one concrete always-succeed cycle the history has 5
records and the summary reports 5 successes. -/
theorem history_length_eq_success_sum_witness :
    oneCycleFinal.improvement_history.length
      = ([oneCycleSummary].map fun s => s.improvements_successful).sum :=
  history_length_eq_success_sum [alwaysSucceedEnv] [oneCycleSummary] oneCycleFinal
    alwaysSucceed_run_eq

/-- C5: the baseline mapping is captured at construction as a copy of the
initial metrics and is unchanged by any number of cycles. -/
theorem baseline_immutable :
    SelfImprovingAI.init.baseline_performance = initialMetrics ∧
    SelfImprovingAI.init.baseline_performance = SelfImprovingAI.init.performance_metrics ∧
    ∀ (ai : SelfImprovingAI) (envs : List Env) (ss : List EvolutionSummary)
      (fin : SelfImprovingAI), run_evolution_cycles ai envs = some (ss, fin) →
      fin.baseline_performance = ai.baseline_performance :=
  ⟨rfl, rfl, fun ai envs ss fin h => (run_evolution_cycles_history envs ai ss fin h).1⟩

/-- C5 (witness): the baseline is unchanged after one concrete cycle. -/
theorem baseline_immutable_witness :
    oneCycleFinal.baseline_performance = SelfImprovingAI.init.baseline_performance :=
  baseline_immutable.2.2 SelfImprovingAI.init [alwaysSucceedEnv] [oneCycleSummary]
    oneCycleFinal alwaysSucceed_run_eq

/-- C6: a candidate is produced exactly for the analysis entries whose
priority exceeds 0.3 (equivalently, current value below 70); an entry with
priority at most 0.3 never appears as a key of the candidate mapping. -/
theorem candidates_iff_priority_threshold
    (ai : SelfImprovingAI) (gd : String → GenDraw)
    (hnd : (ai.performance_metrics.map Prod.fst).Nodup)
    (m : String) (a : MetricAnalysis) (hmem : (m, a) ∈ analyze_self_performance ai) :
    (((0.3 : ℚ) < a.priority) ↔ a.current_score < 70) ∧
    ((0.3 : ℚ) < a.priority →
      (dictGet (generate_improvements ai (analyze_self_performance ai) gd) m).isSome) ∧
    (a.priority ≤ 0.3 →
      dictGet (generate_improvements ai (analyze_self_performance ai) gd) m = none) := by
  obtain ⟨v, _, hcs, _, hpr⟩ := analyze_mem hmem
  have hnda : ((analyze_self_performance ai).map Prod.fst).Nodup := by
    rw [analyze_map_fst]
    exact hnd
  refine ⟨?_, ?_, ?_⟩
  · rw [hpr, hcs, lt_div_iff₀ (by norm_num : (0:ℚ) < 100)]
    constructor <;> intro h <;> nlinarith [h]
  · intro hgt
    rw [dictGet_isSome_iff, generate_improvements_map_fst_mem]
    exact ⟨a, hmem, hgt⟩
  · intro hle
    rw [dictGet_eq_none_iff, generate_improvements_map_fst_mem]
    rintro ⟨a', hmem', hgt'⟩
    have h1 : dictGet (analyze_self_performance ai) m = some a :=
      dictGet_of_mem_nodup hnda hmem
    have h2 : dictGet (analyze_self_performance ai) m = some a' :=
      dictGet_of_mem_nodup hnda hmem'
    rw [h1] at h2
    have : a = a' := Option.some.inj h2
    subst this
    linarith

/-- C6 (witness): the threshold behavior at the first analysis entry of the
initial state. -/
theorem candidates_iff_priority_threshold_witness :
    (((0.3 : ℚ) < initAnalysisHead.priority) ↔ initAnalysisHead.current_score < 70) ∧
    ((0.3 : ℚ) < initAnalysisHead.priority →
      (dictGet (generate_improvements SelfImprovingAI.init
        (analyze_self_performance SelfImprovingAI.init) alwaysSucceedEnv.gen_draws)
        "algorithm_efficiency").isSome) ∧
    (initAnalysisHead.priority ≤ 0.3 →
      dictGet (generate_improvements SelfImprovingAI.init
        (analyze_self_performance SelfImprovingAI.init) alwaysSucceedEnv.gen_draws)
        "algorithm_efficiency" = none) :=
  candidates_iff_priority_threshold SelfImprovingAI.init alwaysSucceedEnv.gen_draws
    (by decide) "algorithm_efficiency" initAnalysisHead (List.mem_cons_self _ _)

/-- C7 (counterexample): applying a successful result with positive gain 7
to a metric at 100 leaves the value at 100 and appends a record, but that
record's delta field (`improvement`) is the positive gain 7, not 0. -/
theorem at_100_delta_counterexample :
    (apply_improvements saturatedState [("code_quality", saturatedResult)] (fun _ => "t")).map
        (fun a => (a.performance_metrics, a.improvement_history.map fun rec =>
          (rec.old_value, rec.new_value, rec.improvement)))
      = some ([("code_quality", 100)], [(100, 100, 7)]) ∧ (7 : ℚ) ≠ 0 := by
  refine ⟨?_, by norm_num⟩
  rw [saturated_apply_eq]
  simp only [Option.map_some', saturatedState', List.map_cons, List.map_nil]

/-- C7 (amended): a metric at exactly 100 that receives a successful result
with strictly positive realized gain stays at exactly 100 (clamped), and a
history record is appended with old = new = 100 (so new − old = 0) whose
delta field (`improvement`) stores the positive realized gain. -/
theorem at_100_clamp_spec
    (ai : SelfImprovingAI) (m : String) (r : TestResult) (clock : String → String)
    (ai' : SelfImprovingAI)
    (h100 : dictGet ai.performance_metrics m = some 100)
    (hs : r.success = true) (hpos : 0 < r.performance_gain)
    (h : apply_improvements ai [(m, r)] clock = some ai') :
    dictGet ai'.performance_metrics m = some 100 ∧
    ai'.improvement_history = ai.improvement_history ++
      [{ generation := ai.generation, metric := m, old_value := 100, new_value := 100,
         improvement := r.performance_gain, timestamp := clock m }] ∧
    (100 : ℚ) - 100 = 0 := by
  simp only [apply_improvements, hs, if_true, h100, Option.some.injEq] at h
  have hmin : min (100 : ℚ) (100 + r.performance_gain) = 100 :=
    min_eq_left (by linarith)
  rw [hmin] at h
  subst h
  refine ⟨?_, rfl, by norm_num⟩
  rw [dictGet_dictSet]
  simp

/-- C7 (witness): the amended description holds at the concrete saturated
state. -/
theorem at_100_clamp_spec_witness :
    dictGet saturatedState'.performance_metrics "code_quality" = some 100 ∧
    saturatedState'.improvement_history = saturatedState.improvement_history ++
      [{ generation := saturatedState.generation, metric := "code_quality", old_value := 100,
         new_value := 100, improvement := saturatedResult.performance_gain, timestamp := "t" }] ∧
    (100 : ℚ) - 100 = 0 :=
  at_100_clamp_spec saturatedState "code_quality" saturatedResult (fun _ => "t")
    saturatedState' rfl rfl (by norm_num [saturatedResult]) saturated_apply_eq

/-- C8: results with success = false change nothing and append no record
for their metric; with every pass/fail draw failing, a run from
construction leaves the current metrics equal to the baseline and
total_improvements at 0. -/
theorem failed_results_leave_state :
    (∀ (ai : SelfImprovingAI) (trs : List (String × TestResult)) (clock : String → String)
        (ai' : SelfImprovingAI), apply_improvements ai trs clock = some ai' →
      ∀ m, (∀ r, (m, r) ∈ trs → r.success = false) →
        dictGet ai'.performance_metrics m = dictGet ai.performance_metrics m ∧
        ∀ rec ∈ ai'.improvement_history, rec ∈ ai.improvement_history ∨ rec.metric ≠ m) ∧
    (∀ envs : List Env, (∀ e ∈ envs, ∀ m, (0.8 : ℚ) ≤ (e.test_draws m).pass_draw) →
      ∃ ss fin, run_evolution_cycles SelfImprovingAI.init envs = some (ss, fin) ∧
        ∀ rep, get_evolution_report fin = some rep →
          rep.current_performance = rep.baseline_performance ∧
          rep.total_improvements = 0) := by
  constructor
  · exact fun ai trs clock ai' h m hm => apply_improvements_skip trs clock ai ai' h m hm
  · intro envs hfail
    obtain ⟨ss, fin, hrun, hm, hh, hb⟩ :=
      run_evolution_cycles_all_fail envs SelfImprovingAI.init hfail (by decide)
    refine ⟨ss, fin, hrun, ?_⟩
    intro rep hrep
    simp only [get_evolution_report] at hrep
    cases hd : delta_from_baseline fin.performance_metrics fin.baseline_performance with
    | none => rw [hd] at hrep; cases hrep
    | some ds =>
      rw [hd] at hrep
      simp only [Option.map_some', Option.some.injEq] at hrep
      subst hrep
      refine ⟨?_, ?_⟩
      · simp only
        rw [hm, hb]
        rfl
      · simp only
        rw [hh]
        rfl

/-- C8 (witness): with a concrete always-fail environment, one cycle
leaves the report's current metrics equal to the baseline and 0 total
improvements. -/
theorem failed_results_leave_state_witness :
    ∃ ss fin, run_evolution_cycles SelfImprovingAI.init [alwaysFailEnv] = some (ss, fin) ∧
      ∀ rep, get_evolution_report fin = some rep →
        rep.current_performance = rep.baseline_performance ∧
        rep.total_improvements = 0 :=
  failed_results_leave_state.2 [alwaysFailEnv]
    (by
      intro e he m
      rw [List.mem_singleton] at he
      subst he
      norm_num [alwaysFailEnv])

/-- C9: improvement-type selection never fails: a metric without a catalog
entry falls back to the generic type, a metric with a catalog entry gets a
type from its own list, and a type without a code template falls back to
the generic templated string. -/
theorem improvement_type_fallback :
    (∀ (metric : String) (choice : ℕ), dictGet improvement_types metric = none →
      select_improvement_type metric choice = "general_optimization") ∧
    (∀ (metric : String) (choice : ℕ) (types : List String),
      dictGet improvement_types metric = some types →
      select_improvement_type metric choice ∈ types) ∧
    (∀ (g : ℕ) (metric itype : String), itype ≠ "optimization" → itype ≠ "deeper_analysis" →
      itype ≠ "meta_learning" →
      generate_improvement_code g metric itype =
        "# Improved " ++ metric ++ " algorithm v" ++ toString (g + 1)) := by
  refine ⟨?_, ?_, ?_⟩
  · intro metric choice h
    simp [select_improvement_type, h, Nat.mod_one]
  · intro metric choice types h
    have hne : types ≠ [] := catalog_lists_nonempty (metric, types) (dictGet_eq_some_mem h)
    simp only [select_improvement_type, h, Option.getD_some]
    exact getD_mod_mem types choice _ hne
  · intro g metric itype h1 h2 h3
    simp [generate_improvement_code, dictGet, Ne.symm h1, Ne.symm h2, Ne.symm h3]

/-- C9 (witness): a metric absent from the catalog selects the generic
fallback type. -/
theorem improvement_type_fallback_witness :
    select_improvement_type "brand_new_metric" 0 = "general_optimization" :=
  improvement_type_fallback.1 "brand_new_metric" 0 (by decide)

/-- C10 (implicit): with draws inside the program's distributions every
metric value is non-decreasing across a cycle, and every per-metric delta
from baseline reported in the summaries and in the report's
overall_progress is non-negative. -/
theorem gains_monotone :
    (∀ (ai : SelfImprovingAI) (env : Env), ValidEnv env →
      (∀ p ∈ ai.performance_metrics, 0 ≤ p.2 ∧ p.2 ≤ 100) →
      ∀ (s : EvolutionSummary) (ai' : SelfImprovingAI),
        evolve_generation ai env = some (s, ai') →
        ∀ m v v', dictGet ai.performance_metrics m = some v →
          dictGet ai'.performance_metrics m = some v' → v ≤ v') ∧
    (∀ envs : List Env, (∀ e ∈ envs, ValidEnv e) →
      ∀ (ss : List EvolutionSummary) (fin : SelfImprovingAI),
        run_evolution_cycles SelfImprovingAI.init envs = some (ss, fin) →
        (∀ s ∈ ss, ∀ q ∈ s.total_improvement_from_baseline, 0 ≤ q.2) ∧
        (∀ rep, get_evolution_report fin = some rep →
          ∀ q ∈ rep.overall_progress, 0 ≤ q.2)) := by
  constructor
  · intro ai env hv hrange s ai' h m v v' hm hm'
    obtain ⟨ai1, happ, hai, _, _, _, _⟩ := evolve_generation_spec h
    have hub : ∀ p ∈ ai.performance_metrics, p.2 ≤ 100 := fun p hp => (hrange p hp).2
    obtain ⟨v'', hv'', hle⟩ :=
      apply_improvements_mono _ _ _ _ happ (pipeline_gain_nonneg hv) hub m v hm
    have hproj : dictGet ai'.performance_metrics m = dictGet ai1.performance_metrics m := by
      rw [hai]
    rw [hproj, hv''] at hm'
    have : v'' = v' := Option.some.inj hm'
    rw [← this]
    exact hle
  · intro envs hv ss fin h
    obtain ⟨hinvf, hss⟩ := run_evolution_cycles_Inv envs SelfImprovingAI.init ss fin hv Inv_init h
    refine ⟨fun s hs => (hss s hs).2, ?_⟩
    intro rep hrep
    simp only [get_evolution_report] at hrep
    cases hd : delta_from_baseline fin.performance_metrics fin.baseline_performance with
    | none => rw [hd] at hrep; cases hrep
    | some ds =>
      rw [hd] at hrep
      simp only [Option.map_some', Option.some.injEq] at hrep
      subst hrep
      exact delta_from_baseline_nonneg hinvf hd

/-- C10 (witness): the non-negativity of reported deltas holds at the
concrete one-cycle always-succeed run. -/
theorem gains_monotone_witness :
    (∀ s ∈ [oneCycleSummary], ∀ q ∈ s.total_improvement_from_baseline, 0 ≤ q.2) ∧
    (∀ rep, get_evolution_report oneCycleFinal = some rep →
      ∀ q ∈ rep.overall_progress, 0 ≤ q.2) :=
  gains_monotone.2 [alwaysSucceedEnv]
    (by
      intro e he
      rw [List.mem_singleton] at he
      subst he
      exact alwaysSucceedEnv_valid)
    [oneCycleSummary] oneCycleFinal alwaysSucceed_run_eq

end RecursiveAI
